import Mathlib

/-!
Verification development for the libp2p peer address store
(`misc/peer-store/src/memory_store.rs` and `misc/peer-store/src/behaviour.rs`).

Shallow embedding conventions:
* `PeerId`, `Multiaddr` are abstract identifiers, modelled as `Nat`.
* `Instant` and `Duration` are modelled as `Nat` ticks.
  `Instant::duration_since` saturates at zero, which matches truncated
  `Nat` subtraction.
* The Rust code reads the wall clock with `Instant::now()` inside mutating
  operations; the embedding passes the current instant `now` explicitly,
  as the design notes of the component prescribe for deterministic tests.
* The `lru::LruCache` container is modelled as an association list ordered
  most-recently-used first, together with its capacity.  The operations
  used by the source (`get_mut` — which promotes the hit entry to the
  most-recently-used position —, `get_or_insert` — which inserts at the
  most-recently-used position and evicts the least-recently-used entry
  when the cache is full —, `pop`, `iter` — which iterates from most to
  least recently used —, `len`) are embedded below.
* `HashMap<PeerId, _>` is modelled as a function `PeerId → Option _`.
-/

namespace PeerStore

abbrev PeerId := Nat
abbrev Multiaddr := Nat
abbrev Instant := Nat
abbrev Duration := Nat

/-- `AddressSource` from `store.rs` (named in `memory_store.rs`): how an
address was discovered. -/
inductive AddressSource where
  | manual
  | behaviour
  | directConnection
deriving DecidableEq, Repr

namespace record

/-- The private `record::AddressRecord` of `memory_store.rs`: the stored
per-address data. -/
structure AddressRecord where
  last_seen : Instant
  source : AddressSource
  should_expire : Bool
deriving DecidableEq, Repr

/-- `record::AddressRecord::new(source, should_expire)`; `last_seen` is the
current instant, passed explicitly. -/
def AddressRecord.new (now : Instant) (source : AddressSource)
    (should_expire : Bool) : AddressRecord :=
  { last_seen := now, source := source, should_expire := should_expire }

/-- `record::AddressRecord::update_last_seen`. -/
def AddressRecord.update_last_seen (r : AddressRecord) (now : Instant) :
    AddressRecord :=
  { r with last_seen := now }

/-- `record::AddressRecord::is_expired(now, ttl)`:
`should_expire && now.duration_since(last_seen) > ttl`. -/
def AddressRecord.is_expired (r : AddressRecord) (now : Instant)
    (ttl : Duration) : Bool :=
  r.should_expire && decide (ttl < now - r.last_seen)

end record

/-- Model of `lru::LruCache<Multiaddr, record::AddressRecord>`: entries are
listed most-recently-used first. -/
structure LruCache where
  cap : Nat
  entries : List (Multiaddr × record.AddressRecord)
deriving DecidableEq, Repr

namespace LruCache

/-- `LruCache::new(capacity)`. -/
def new (capacity : Nat) : LruCache := { cap := capacity, entries := [] }

/-- Key lookup (no recency change); used to express the two branches of
`get_mut` / `get_or_insert`. -/
def find (c : LruCache) (k : Multiaddr) : Option record.AddressRecord :=
  (c.entries.find? (fun e => e.1 == k)).map (fun e => e.2)

/-- `LruCache::get_mut(k)` followed by an in-place mutation `f` of the hit
value: on a hit the entry is promoted to the most-recently-used position
and mutated; `none` models a miss. -/
def get_mut_update (c : LruCache) (k : Multiaddr)
    (f : record.AddressRecord → record.AddressRecord) : Option LruCache :=
  match c.entries.find? (fun e => e.1 == k) with
  | some e =>
      some { c with entries := (k, f e.2) :: c.entries.eraseP (fun x => x.1 == k) }
  | none => none

/-- `LruCache::get_or_insert(k, f)`: on a hit the entry is promoted; on a
miss the new value is inserted most-recently-used, evicting the
least-recently-used entry when the cache would exceed its capacity. -/
def get_or_insert (c : LruCache) (k : Multiaddr) (v : record.AddressRecord) :
    LruCache :=
  match c.entries.find? (fun e => e.1 == k) with
  | some e =>
      { c with entries := (k, e.2) :: c.entries.eraseP (fun x => x.1 == k) }
  | none =>
      let es := (k, v) :: c.entries
      { c with entries := if c.cap < es.length then es.dropLast else es }

/-- `LruCache::pop(k)`: removes the entry, returning it when present. -/
def pop (c : LruCache) (k : Multiaddr) :
    Option record.AddressRecord × LruCache :=
  match c.entries.find? (fun e => e.1 == k) with
  | some e => (some e.2, { c with entries := c.entries.eraseP (fun x => x.1 == k) })
  | none => (none, c)

end LruCache

namespace record

/-- `record::PeerAddressRecord`: the bounded, recency-ordered address cache
of one peer. -/
structure PeerAddressRecord where
  addresses : LruCache
deriving DecidableEq, Repr

/-- `record::PeerAddressRecord::new(capacity)`. -/
def PeerAddressRecord.new (capacity : Nat) : PeerAddressRecord :=
  { addresses := LruCache.new capacity }

/-- `record::PeerAddressRecord::update_address(address, source, should_expire)`:
on a hit, refresh `last_seen` (the hit is promoted by `get_mut`) and return
`false`; on a miss, insert a fresh record and return `true`. -/
def PeerAddressRecord.update_address (r : PeerAddressRecord) (now : Instant)
    (address : Multiaddr) (source : AddressSource) (should_expire : Bool) :
    Bool × PeerAddressRecord :=
  match r.addresses.get_mut_update address
      (fun rec => rec.update_last_seen now) with
  | some c => (false, { addresses := c })
  | none =>
      (true, { addresses := (r.addresses.get_or_insert address
          (AddressRecord.new now source should_expire)) })

/-- `record::PeerAddressRecord::remove_address(address)`:
`self.addresses.pop(address).is_some()`. -/
def PeerAddressRecord.remove_address (r : PeerAddressRecord)
    (address : Multiaddr) : Bool × PeerAddressRecord :=
  let (popped, c) := r.addresses.pop address
  (popped.isSome, { addresses := c })

/-- `record::PeerAddressRecord::check_ttl(now, ttl)`: collect every key whose
record `is_expired`, then `pop` each collected key. -/
def PeerAddressRecord.check_ttl (r : PeerAddressRecord) (now : Instant)
    (ttl : Duration) : PeerAddressRecord :=
  let records_to_be_deleted :=
    (r.addresses.entries.filter (fun e => e.2.is_expired now ttl)).map
      (fun e => e.1)
  { addresses := { r.addresses with entries :=
      (records_to_be_deleted.foldl
        (fun es k => es.eraseP (fun x => x.1 == k)) r.addresses.entries) } }

/-- The list of stored addresses of a peer in iteration order
(most-recently-used first), i.e. the `address` components of
`PeerAddressRecord::records()`. -/
def PeerAddressRecord.addressList (r : PeerAddressRecord) : List Multiaddr :=
  r.addresses.entries.map (fun e => e.1)

end record

/-- The view struct `AddressRecord<'a>` of `memory_store.rs`, produced by
`PeerAddressRecord::records()`. -/
structure AddressRecord where
  last_seen : Instant
  address : Multiaddr
  source : AddressSource
  should_expire : Bool
deriving DecidableEq, Repr

/-- `record::PeerAddressRecord::records()`: iterate the LRU cache (most
recently used first), building the view records. -/
def record.PeerAddressRecord.records (r : record.PeerAddressRecord) :
    List PeerStore.AddressRecord :=
  r.addresses.entries.map (fun e =>
    { address := e.1, last_seen := e.2.last_seen, source := e.2.source,
      should_expire := e.2.should_expire })

/-- `Config` of `memory_store.rs`.  `record_capacity` is a `NonZeroUsize` in
the source; positivity is carried as a hypothesis where it matters. -/
structure Config where
  record_ttl : Duration
  record_capacity : Nat
deriving DecidableEq, Repr

/-- `Config::default()`: ttl 600 seconds, capacity 8 (ticks are seconds
here). -/
def Config.default : Config := { record_ttl := 600, record_capacity := 8 }

/-- `store::Event` of the `Store` trait, with the backend-specific variant
`Store(T)`. -/
inductive StoreEvent (T : Type) where
  | recordUpdated (peer : PeerId)
  | store (ev : T)
deriving DecidableEq, Repr

/-- The `FromSwarm` lifecycle events the store reacts to; every other
variant is collapsed into `other`, which the source ignores. -/
inductive FromSwarm where
  | newExternalAddrOfPeer (peer_id : PeerId) (addr : Multiaddr)
  | connectionEstablished (peer_id : PeerId) (remote_address : Multiaddr)
      (failed_addresses : List Multiaddr)
  | other
deriving DecidableEq, Repr

/-- `MemoryStore`: address book (a map from peer to its record) plus
configuration. -/
structure MemoryStore where
  address_book : PeerId → Option record.PeerAddressRecord
  config : Config

/-- `MemoryStore::new(config)` (the book starts empty, by `Default`). -/
def MemoryStore.new (config : Config) : MemoryStore :=
  { address_book := fun _ => none, config := config }

/-- `MemoryStore::update_address`: delegate to the peer's record when
present; otherwise create a fresh record, update it (discarding its return
value) and answer `true`. -/
def MemoryStore.update_address (s : MemoryStore) (now : Instant)
    (peer : PeerId) (address : Multiaddr) (source : AddressSource)
    (should_expire : Bool) : Bool × MemoryStore :=
  match s.address_book peer with
  | some r =>
      let (b, r') := r.update_address now address source should_expire
      (b, { s with address_book := fun p =>
              if p = peer then some r' else s.address_book p })
  | none =>
      let new_record :=
        ((record.PeerAddressRecord.new s.config.record_capacity).update_address
          now address source should_expire).2
      (true, { s with address_book := fun p =>
                if p = peer then some new_record else s.address_book p })

/-- `MemoryStore::remove_address`: delegate when the peer is known,
otherwise `false`. -/
def MemoryStore.remove_address (s : MemoryStore) (peer : PeerId)
    (address : Multiaddr) : Bool × MemoryStore :=
  match s.address_book peer with
  | some r =>
      let (b, r') := r.remove_address address
      (b, { s with address_book := fun p =>
              if p = peer then some r' else s.address_book p })
  | none => (false, s)

/-- The `for failed_addr in info.failed_addresses` loop of
`MemoryStore::on_swarm_event`, accumulating `is_record_updated` with `|=`. -/
def MemoryStore.remove_failed (s : MemoryStore) (peer : PeerId)
    (failed : List Multiaddr) : Bool × MemoryStore :=
  failed.foldl
    (fun acc fa =>
      let (b, s') := acc.2.remove_address peer fa
      (acc.1 || b, s'))
    (false, s)

/-- `MemoryStore::on_swarm_event`.  `T` is the backend event type of the
store (`Store::FromStore`); only `RecordUpdated` is ever produced here. -/
def MemoryStore.on_swarm_event (T : Type) (s : MemoryStore) (now : Instant)
    (swarm_event : FromSwarm) : Option (StoreEvent T) × MemoryStore :=
  match swarm_event with
  | .newExternalAddrOfPeer peer_id addr =>
      let (b, s') := s.update_address now peer_id addr .behaviour true
      (if b then some (.recordUpdated peer_id) else none, s')
  | .connectionEstablished peer_id remote failed =>
      let (rb, s1) := s.remove_failed peer_id failed
      let (ub, s2) :=
        s1.update_address now peer_id remote .directConnection false
      let is_record_updated := rb || ub
      (if is_record_updated then some (.recordUpdated peer_id) else none, s2)
  | .other => (none, s)

/-- `MemoryStore::addresses_of_peer`: `None` for an unknown peer, otherwise
the record's addresses in iteration order. -/
def MemoryStore.addresses_of_peer (s : MemoryStore) (peer : PeerId) :
    Option (List Multiaddr) :=
  (s.address_book peer).map (fun r => r.addressList)

/-- `MemoryStore::check_ttl`: run `PeerAddressRecord::check_ttl(now, ttl)`
on every record of the book. -/
def MemoryStore.check_ttl (s : MemoryStore) (now : Instant) : MemoryStore :=
  { s with address_book := fun p =>
      (s.address_book p).map (fun r => r.check_ttl now s.config.record_ttl) }

/-- Modelled from the spec: the `Store` trait (defined in `store.rs`, which
is not part of this excerpt) lets a backend surface asynchronous events of
its own through `poll`; "the in-memory backend never produces one", so its
backend-event type is taken to be `Empty` and its `poll` constantly yields
nothing. -/
def MemoryStore.pollStore (_s : MemoryStore) : Option (StoreEvent Empty) :=
  none

/-- `behaviour::Event`: the events the `Behaviour` emits to the swarm. -/
inductive BehaviourEvent (T : Type) where
  | recordUpdated (peer : PeerId)
  | store (ev : T)
deriving DecidableEq, Repr

/-- `Behaviour::handle_store_event`: push the wrapped store event to the
back of `pending_events`. -/
def handle_store_event (T : Type) (pending : List (BehaviourEvent T))
    (event : StoreEvent T) : List (BehaviourEvent T) :=
  match event with
  | .recordUpdated peer => pending ++ [.recordUpdated peer]
  | .store ev => pending ++ [.store ev]

/-- The state-transforming core of `Behaviour::poll`, generic in the store
backend: the result of `self.store.poll(cx)` is passed in as `store_poll`.
A drained store event is handed to `handle_store_event`; then the front of
`pending_events` is popped (`some` models `Poll::Ready`, `none` models
`Poll::Pending`). -/
def behaviour_poll (T : Type) (store_poll : Option (StoreEvent T))
    (pending : List (BehaviourEvent T)) :
    Option (BehaviourEvent T) × List (BehaviourEvent T) :=
  let pending1 :=
    match store_poll with
    | some ev => handle_store_event T pending ev
    | none => pending
  match pending1 with
  | [] => (none, [])
  | e :: rest => (some e, rest)

/-- `Behaviour<MemoryStore>`: the store plus the pending FIFO queue. -/
structure Behaviour where
  store : MemoryStore
  pending_events : List (BehaviourEvent Empty)

/-- `Behaviour::new(store)`. -/
def Behaviour.new (store : MemoryStore) : Behaviour :=
  { store := store, pending_events := [] }

/-- `Behaviour::on_swarm_event` (the `NetworkBehaviour` impl): the source
runs `self.store.on_swarm_event(&event);` and discards the returned
`Option<Event>`, so only the store changes and nothing is queued. -/
def Behaviour.on_swarm_event (b : Behaviour) (now : Instant)
    (event : FromSwarm) : Behaviour :=
  { b with store := (b.store.on_swarm_event Empty now event).2 }

/-- `Behaviour::poll` for the in-memory store, via `behaviour_poll`. -/
def Behaviour.poll (b : Behaviour) :
    Option (BehaviourEvent Empty) × Behaviour :=
  let (out, pending') :=
    behaviour_poll Empty b.store.pollStore b.pending_events
  (out, { b with pending_events := pending' })

/-! Specification-side helpers: key projections, record lookup, the step
relation over the store's public operations, and reachability. -/

/-- The keys (addresses) of an entry list. -/
def keysOf (es : List (Multiaddr × record.AddressRecord)) : List Multiaddr :=
  es.map (fun e => e.1)

/-- The stored data of one `(peer, address)` pair, if present. -/
def MemoryStore.lookup_record (s : MemoryStore) (peer : PeerId)
    (address : Multiaddr) : Option record.AddressRecord :=
  (s.address_book peer).bind
    (fun r => (r.addresses.entries.find? (fun e => e.1 == address)).map
      (fun e => e.2))

/-- One public mutating operation of the store. -/
inductive Op where
  | update (now : Instant) (peer : PeerId) (address : Multiaddr)
      (source : AddressSource) (should_expire : Bool)
  | remove (peer : PeerId) (address : Multiaddr)
  | swarm (now : Instant) (event : FromSwarm)
  | ttl (now : Instant)

/-- Apply one operation to the store (keeping only the state). -/
def MemoryStore.applyOp (s : MemoryStore) : Op → MemoryStore
  | .update now p a src e => (s.update_address now p a src e).2
  | .remove p a => (s.remove_address p a).2
  | .swarm now ev => (s.on_swarm_event Empty now ev).2
  | .ttl now => s.check_ttl now

/-- Apply a list of operations in order. -/
def MemoryStore.applyOps (s : MemoryStore) (ops : List Op) : MemoryStore :=
  ops.foldl MemoryStore.applyOp s

/-- A store state is reachable when it arises from a fresh store by some
finite sequence of public operations. -/
def Reachable (s : MemoryStore) : Prop :=
  ∃ cfg ops, MemoryStore.applyOps (MemoryStore.new cfg) ops = s

/-- Structural invariant of one peer record: the cache's capacity is the
configured one, addresses are unique within the peer, and the size is
bounded by the capacity. -/
def RecordInv (cap : Nat) (r : record.PeerAddressRecord) : Prop :=
  r.addresses.cap = cap ∧ (keysOf r.addresses.entries).Nodup ∧
    r.addresses.entries.length ≤ cap

/-- Structural invariant of the whole store. -/
def StoreInv (s : MemoryStore) : Prop :=
  ∀ p r, s.address_book p = some r → RecordInv s.config.record_capacity r

/-- How `Behaviour::handle_store_event` wraps a store event. -/
def wrap_store_event (T : Type) : StoreEvent T → BehaviourEvent T
  | .recordUpdated peer => .recordUpdated peer
  | .store ev => .store ev

/-! Lemmas about `find?` and `eraseP` on entry lists. -/

theorem find?_key_decomp {es : List (Multiaddr × record.AddressRecord)}
    {k : Multiaddr} {e : Multiaddr × record.AddressRecord}
    (h : es.find? (fun x => x.1 == k) = some e) :
    e.1 = k ∧ ∃ l1 l2, (∀ b ∈ l1, b.1 ≠ k) ∧ es = l1 ++ e :: l2 ∧
      es.eraseP (fun x => x.1 == k) = l1 ++ l2 := by
  induction es with
  | nil => simp at h
  | cons hd tl ih =>
    by_cases hk : hd.1 = k
    · have hb : (hd.1 == k) = true := by simpa using hk
      have hh : some hd = some e := by
        simpa [List.find?_cons, hb] using h
      cases hh
      exact ⟨hk, [], tl, by simp, rfl, by simp [List.eraseP_cons, hb]⟩
    · have hb : (hd.1 == k) = false := by simpa using hk
      have hh : tl.find? (fun x => x.1 == k) = some e := by
        simpa [List.find?_cons, hb] using h
      obtain ⟨hek, l1, l2, hl1, hes, her⟩ := ih hh
      refine ⟨hek, hd :: l1, l2, ?_, by simp [hes], ?_⟩
      · intro b hb'
        rcases List.mem_cons.mp hb' with rfl | hb''
        · exact hk
        · exact hl1 b hb''
      · simp [List.eraseP_cons, hb, her]

theorem find?_key_eq_none {es : List (Multiaddr × record.AddressRecord)}
    {k : Multiaddr} :
    es.find? (fun x => x.1 == k) = none ↔ k ∉ keysOf es := by
  rw [List.find?_eq_none]
  constructor
  · intro h hmem
    obtain ⟨e, he, hek⟩ := List.mem_map.mp hmem
    exact h e he (by simpa using hek)
  · intro h e he hek
    exact h (List.mem_map.mpr ⟨e, he, by simpa using hek⟩)

theorem keysOf_append (l1 l2 : List (Multiaddr × record.AddressRecord)) :
    keysOf (l1 ++ l2) = keysOf l1 ++ keysOf l2 := by
  simp [keysOf]

theorem keysOf_eraseP_of_find? {es : List (Multiaddr × record.AddressRecord)}
    {k : Multiaddr} {e : Multiaddr × record.AddressRecord}
    (hnd : (keysOf es).Nodup) (h : es.find? (fun x => x.1 == k) = some e) :
    k ∉ keysOf (es.eraseP (fun x => x.1 == k)) := by
  obtain ⟨hek, l1, l2, _, hes, her⟩ := find?_key_decomp h
  subst hes
  rw [her, keysOf_append]
  rw [keysOf_append] at hnd
  have : keysOf (e :: l2) = e.1 :: keysOf l2 := by simp [keysOf]
  rw [this, hek] at hnd
  intro hmem
  rcases List.mem_append.mp hmem with h1 | h2
  · exact (List.Nodup.not_mem (List.nodup_middle.mp (by simpa using hnd)))
      (List.mem_append.mpr (Or.inl h1))
  · exact (List.Nodup.not_mem (List.nodup_middle.mp (by simpa using hnd)))
      (List.mem_append.mpr (Or.inr h2))

theorem length_eraseP_of_find? {es : List (Multiaddr × record.AddressRecord)}
    {k : Multiaddr} {e : Multiaddr × record.AddressRecord}
    (h : es.find? (fun x => x.1 == k) = some e) :
    (es.eraseP (fun x => x.1 == k)).length + 1 = es.length := by
  have hpa := List.find?_some h
  exact List.length_eraseP_add_one (List.mem_of_find?_eq_some h) hpa

theorem keysOf_sublist {es es' : List (Multiaddr × record.AddressRecord)}
    (h : List.Sublist es' es) : List.Sublist (keysOf es') (keysOf es) :=
  List.Sublist.map _ h

theorem foldl_eraseP_sublist (ks : List Multiaddr)
    (es : List (Multiaddr × record.AddressRecord)) :
    List.Sublist
      (ks.foldl (fun es k => es.eraseP (fun x => x.1 == k)) es) es := by
  induction ks generalizing es with
  | nil => exact List.Sublist.refl es
  | cons k ks ih =>
    exact List.Sublist.trans (ih (es.eraseP (fun x => x.1 == k)))
      (List.eraseP_sublist es)

theorem eraseP_key_eq_filter {es : List (Multiaddr × record.AddressRecord)}
    {k : Multiaddr} (hnd : (keysOf es).Nodup) :
    es.eraseP (fun x => x.1 == k) = es.filter (fun x => !(x.1 == k)) := by
  induction es with
  | nil => rfl
  | cons hd tl ih =>
    have hnd' : (keysOf tl).Nodup := (List.nodup_cons.mp hnd).2
    by_cases hk : hd.1 = k
    · have hb : (hd.1 == k) = true := by simpa using hk
      have hmem : k ∉ keysOf tl := by
        rw [← hk]; exact (List.nodup_cons.mp hnd).1
      have htl : tl.filter (fun x => !(x.1 == k)) = tl := by
        apply List.filter_eq_self.mpr
        intro e he
        have : e.1 ≠ k := by
          intro hek
          exact hmem (hek ▸ List.mem_map.mpr ⟨e, he, rfl⟩)
        simpa using this
      simp [List.eraseP_cons, List.filter_cons, hb, htl]
    · have hb : (hd.1 == k) = false := by simpa using hk
      simp [List.eraseP_cons, List.filter_cons, hb, ih hnd']

theorem foldl_eraseP_eq_filter (ks : List Multiaddr)
    {es : List (Multiaddr × record.AddressRecord)}
    (hnd : (keysOf es).Nodup) :
    ks.foldl (fun es k => es.eraseP (fun x => x.1 == k)) es
      = es.filter (fun x => !(ks.contains x.1)) := by
  induction ks generalizing es with
  | nil => simp
  | cons k ks ih =>
    have h1 : es.eraseP (fun x => x.1 == k)
        = es.filter (fun x => !(x.1 == k)) := eraseP_key_eq_filter hnd
    have hnd' : (keysOf (es.filter (fun x => !(x.1 == k)))).Nodup :=
      (keysOf_sublist (List.filter_sublist es)).nodup hnd
    calc (k :: ks).foldl (fun es k => es.eraseP (fun x => x.1 == k)) es
        = ks.foldl (fun es k => es.eraseP (fun x => x.1 == k))
            (es.filter (fun x => !(x.1 == k))) := by
          simp [List.foldl_cons, h1]
      _ = (es.filter (fun x => !(x.1 == k))).filter
            (fun x => !(ks.contains x.1)) := ih hnd'
      _ = es.filter (fun x => !((k :: ks).contains x.1)) := by
          rw [List.filter_filter]
          apply List.filter_congr
          intro x _
          show (!(ks.contains x.1) && !(x.1 == k)) = !((k :: ks).contains x.1)
          by_cases h : x.1 = k
          · simp [h]
          · have h1 : (x.1 == k) = false := by simpa using h
            have h2 : (k == x.1) = false := by
              simpa using fun he => h he.symm
            simp only [List.contains_cons, h2, Bool.false_or, h1,
              Bool.not_false, Bool.and_true]

theorem nodup_keys_inj {es : List (Multiaddr × record.AddressRecord)}
    (hnd : (keysOf es).Nodup) {e1 e2 : Multiaddr × record.AddressRecord}
    (h1 : e1 ∈ es) (h2 : e2 ∈ es) (hk : e1.1 = e2.1) : e1 = e2 :=
  List.inj_on_of_nodup_map hnd h1 h2 hk

theorem check_ttl_entries_eq {r : record.PeerAddressRecord} {now : Instant}
    {ttl : Duration} (hnd : (keysOf r.addresses.entries).Nodup) :
    (r.check_ttl now ttl).addresses.entries
      = r.addresses.entries.filter
          (fun e => !(e.2.is_expired now ttl)) := by
  unfold record.PeerAddressRecord.check_ttl
  simp only
  rw [foldl_eraseP_eq_filter _ hnd]
  apply List.filter_congr
  intro e he
  have hcm : ∀ (ks : List Multiaddr) (a : Multiaddr),
      ks.contains a = true ↔ a ∈ ks := by
    intro ks a; simp
  by_cases hexp : e.2.is_expired now ttl = true
  · have hc : ((r.addresses.entries.filter
        (fun x => x.2.is_expired now ttl)).map (fun x => x.1)).contains e.1
          = true :=
      (hcm _ _).mpr
        (List.mem_map.mpr ⟨e, List.mem_filter.mpr ⟨he, hexp⟩, rfl⟩)
    simp only [hc, hexp]
  · have hexp' : e.2.is_expired now ttl = false := by
      simpa using hexp
    have hnm : e.1 ∉ (r.addresses.entries.filter
        (fun x => x.2.is_expired now ttl)).map (fun x => x.1) := by
      intro hmem
      obtain ⟨x, hx, hxk⟩ := List.mem_map.mp hmem
      have hxe : x = e := nodup_keys_inj hnd (List.mem_filter.mp hx).1 he hxk
      rw [hxe] at hx
      rw [(List.mem_filter.mp hx).2] at hexp'
      exact Bool.true_eq_false.mp hexp'
    have hc : ((r.addresses.entries.filter
        (fun x => x.2.is_expired now ttl)).map (fun x => x.1)).contains e.1
          = false := by
      cases hcc : ((r.addresses.entries.filter
          (fun x => x.2.is_expired now ttl)).map (fun x => x.1)).contains e.1
      · rfl
      · exact absurd ((hcm _ _).mp hcc) hnm
    simp only [hc, hexp']

/-! Unfolding equations for the record operations, by the two cases of the
cache lookup. -/

theorem update_address_of_find?_some {r : record.PeerAddressRecord}
    {a : Multiaddr} {e : Multiaddr × record.AddressRecord}
    (hfind : r.addresses.entries.find? (fun x => x.1 == a) = some e)
    (now : Instant) (src : AddressSource) (se : Bool) :
    r.update_address now a src se =
      (false, ⟨⟨r.addresses.cap,
        (a, e.2.update_last_seen now)
          :: r.addresses.entries.eraseP (fun x => x.1 == a)⟩⟩) := by
  unfold record.PeerAddressRecord.update_address LruCache.get_mut_update
  rw [hfind]

theorem update_address_of_find?_none {r : record.PeerAddressRecord}
    {a : Multiaddr}
    (hfind : r.addresses.entries.find? (fun x => x.1 == a) = none)
    (now : Instant) (src : AddressSource) (se : Bool) :
    r.update_address now a src se =
      (true, ⟨⟨r.addresses.cap,
        if r.addresses.cap
            < ((a, record.AddressRecord.new now src se)
                :: r.addresses.entries).length
        then ((a, record.AddressRecord.new now src se)
                :: r.addresses.entries).dropLast
        else (a, record.AddressRecord.new now src se)
                :: r.addresses.entries⟩⟩) := by
  unfold record.PeerAddressRecord.update_address LruCache.get_mut_update
    LruCache.get_or_insert
  rw [hfind]

theorem remove_address_of_find?_some {r : record.PeerAddressRecord}
    {a : Multiaddr} {e : Multiaddr × record.AddressRecord}
    (hfind : r.addresses.entries.find? (fun x => x.1 == a) = some e) :
    r.remove_address a =
      (true, ⟨⟨r.addresses.cap,
        r.addresses.entries.eraseP (fun x => x.1 == a)⟩⟩) := by
  unfold record.PeerAddressRecord.remove_address LruCache.pop
  rw [hfind]
  rfl

theorem remove_address_of_find?_none {r : record.PeerAddressRecord}
    {a : Multiaddr}
    (hfind : r.addresses.entries.find? (fun x => x.1 == a) = none) :
    r.remove_address a = (false, r) := by
  unfold record.PeerAddressRecord.remove_address LruCache.pop
  rw [hfind]
  rfl

/-! Invariant preservation at the record level. -/

theorem record_new_inv (cap : Nat) :
    RecordInv cap (record.PeerAddressRecord.new cap) :=
  ⟨rfl, List.nodup_nil, Nat.zero_le cap⟩

theorem update_address_record_inv {cap : Nat} {r : record.PeerAddressRecord}
    (h : RecordInv cap r) (now : Instant) (a : Multiaddr)
    (src : AddressSource) (se : Bool) :
    RecordInv cap (r.update_address now a src se).2 := by
  obtain ⟨hcap, hnd, hlen⟩ := h
  cases hfind : r.addresses.entries.find? (fun x => x.1 == a) with
  | some e =>
    rw [update_address_of_find?_some hfind now src se]
    refine ⟨hcap, ?_, ?_⟩
    · show (keysOf ((a, e.2.update_last_seen now)
        :: r.addresses.entries.eraseP (fun x => x.1 == a))).Nodup
      have : keysOf ((a, e.2.update_last_seen now)
          :: r.addresses.entries.eraseP (fun x => x.1 == a))
            = a :: keysOf (r.addresses.entries.eraseP (fun x => x.1 == a)) :=
        rfl
      rw [this]
      exact List.nodup_cons.mpr ⟨keysOf_eraseP_of_find? hnd hfind,
        (keysOf_sublist (List.eraseP_sublist _)).nodup hnd⟩
    · show ((a, e.2.update_last_seen now)
        :: r.addresses.entries.eraseP (fun x => x.1 == a)).length ≤ cap
      rw [List.length_cons, length_eraseP_of_find? hfind]
      exact hlen
  | none =>
    rw [update_address_of_find?_none hfind now src se]
    have hna : a ∉ keysOf r.addresses.entries := find?_key_eq_none.mp hfind
    have hnd' : (keysOf ((a, record.AddressRecord.new now src se)
        :: r.addresses.entries)).Nodup := by
      have : keysOf ((a, record.AddressRecord.new now src se)
          :: r.addresses.entries) = a :: keysOf r.addresses.entries := rfl
      rw [this]
      exact List.nodup_cons.mpr ⟨hna, hnd⟩
    by_cases hc : r.addresses.cap
        < ((a, record.AddressRecord.new now src se)
            :: r.addresses.entries).length
    · refine ⟨hcap, ?_, ?_⟩
      · show (keysOf (if r.addresses.cap
            < ((a, record.AddressRecord.new now src se)
                :: r.addresses.entries).length
          then ((a, record.AddressRecord.new now src se)
                :: r.addresses.entries).dropLast
          else (a, record.AddressRecord.new now src se)
                :: r.addresses.entries)).Nodup
        rw [if_pos hc]
        exact (keysOf_sublist (List.dropLast_sublist _)).nodup hnd'
      · show (if r.addresses.cap
            < ((a, record.AddressRecord.new now src se)
                :: r.addresses.entries).length
          then ((a, record.AddressRecord.new now src se)
                :: r.addresses.entries).dropLast
          else (a, record.AddressRecord.new now src se)
                :: r.addresses.entries).length ≤ cap
        rw [if_pos hc, List.length_dropLast, List.length_cons]
        simpa using hlen
    · refine ⟨hcap, ?_, ?_⟩
      · show (keysOf (if r.addresses.cap
            < ((a, record.AddressRecord.new now src se)
                :: r.addresses.entries).length
          then ((a, record.AddressRecord.new now src se)
                :: r.addresses.entries).dropLast
          else (a, record.AddressRecord.new now src se)
                :: r.addresses.entries)).Nodup
        rw [if_neg hc]
        exact hnd'
      · show (if r.addresses.cap
            < ((a, record.AddressRecord.new now src se)
                :: r.addresses.entries).length
          then ((a, record.AddressRecord.new now src se)
                :: r.addresses.entries).dropLast
          else (a, record.AddressRecord.new now src se)
                :: r.addresses.entries).length ≤ cap
        rw [if_neg hc]
        rw [← hcap]
        exact Nat.not_lt.mp hc

theorem remove_address_record_inv {cap : Nat} {r : record.PeerAddressRecord}
    (h : RecordInv cap r) (a : Multiaddr) :
    RecordInv cap (r.remove_address a).2 := by
  obtain ⟨hcap, hnd, hlen⟩ := h
  cases hfind : r.addresses.entries.find? (fun x => x.1 == a) with
  | some e =>
    rw [remove_address_of_find?_some hfind]
    exact ⟨hcap, (keysOf_sublist (List.eraseP_sublist _)).nodup hnd,
      Nat.le_trans (List.eraseP_sublist _).length_le hlen⟩
  | none =>
    rw [remove_address_of_find?_none hfind]
    exact ⟨hcap, hnd, hlen⟩

theorem check_ttl_record_inv {cap : Nat} {r : record.PeerAddressRecord}
    (h : RecordInv cap r) (now : Instant) (ttl : Duration) :
    RecordInv cap (r.check_ttl now ttl) := by
  obtain ⟨hcap, hnd, hlen⟩ := h
  have hsub := foldl_eraseP_sublist
    ((r.addresses.entries.filter (fun e => e.2.is_expired now ttl)).map
      (fun e => e.1)) r.addresses.entries
  exact ⟨hcap, (keysOf_sublist hsub).nodup hnd,
    Nat.le_trans hsub.length_le hlen⟩

/-! Unfolding equations and invariant preservation at the store level. -/

theorem store_update_of_book_some {s : MemoryStore} {peer : PeerId}
    {r : record.PeerAddressRecord} (hb : s.address_book peer = some r)
    (now : Instant) (a : Multiaddr) (src : AddressSource) (se : Bool) :
    s.update_address now peer a src se =
      ((r.update_address now a src se).1,
       { s with address_book := fun p =>
           (if p = peer then some (r.update_address now a src se).2
            else s.address_book p) }) := by
  rcases hur : r.update_address now a src se with ⟨b, r'⟩
  simp [MemoryStore.update_address, hb, hur]

theorem store_update_of_book_none {s : MemoryStore} {peer : PeerId}
    (hb : s.address_book peer = none) (now : Instant) (a : Multiaddr)
    (src : AddressSource) (se : Bool) :
    s.update_address now peer a src se =
      (true, { s with address_book := fun p =>
          (if p = peer then
            some ((record.PeerAddressRecord.new
              s.config.record_capacity).update_address now a src se).2
           else s.address_book p) }) := by
  simp [MemoryStore.update_address, hb]

theorem store_remove_of_book_some {s : MemoryStore} {peer : PeerId}
    {r : record.PeerAddressRecord} (hb : s.address_book peer = some r)
    (a : Multiaddr) :
    s.remove_address peer a =
      ((r.remove_address a).1,
       { s with address_book := fun p =>
           (if p = peer then some (r.remove_address a).2
            else s.address_book p) }) := by
  rcases hrr : r.remove_address a with ⟨b, r'⟩
  simp [MemoryStore.remove_address, hb, hrr]

theorem store_remove_of_book_none {s : MemoryStore} {peer : PeerId}
    (hb : s.address_book peer = none) (a : Multiaddr) :
    s.remove_address peer a = (false, s) := by
  simp [MemoryStore.remove_address, hb]

theorem store_update_config (s : MemoryStore) (now : Instant) (peer : PeerId)
    (a : Multiaddr) (src : AddressSource) (se : Bool) :
    (s.update_address now peer a src se).2.config = s.config := by
  cases hb : s.address_book peer with
  | some r => rw [store_update_of_book_some hb now a src se]
  | none => rw [store_update_of_book_none hb now a src se]

theorem store_remove_config (s : MemoryStore) (peer : PeerId)
    (a : Multiaddr) : (s.remove_address peer a).2.config = s.config := by
  cases hb : s.address_book peer with
  | some r => rw [store_remove_of_book_some hb a]
  | none => rw [store_remove_of_book_none hb a]

theorem store_update_inv {s : MemoryStore} (h : StoreInv s) (now : Instant)
    (peer : PeerId) (a : Multiaddr) (src : AddressSource) (se : Bool) :
    StoreInv (s.update_address now peer a src se).2 := by
  cases hb : s.address_book peer with
  | some r0 =>
    rw [store_update_of_book_some hb now a src se]
    intro p r hp
    have hp' : (if p = peer then some (r0.update_address now a src se).2
        else s.address_book p) = some r := hp
    by_cases hpp : p = peer
    · rw [if_pos hpp] at hp'
      cases hp'
      exact update_address_record_inv (h peer r0 hb) now a src se
    · rw [if_neg hpp] at hp'
      exact h p r hp'
  | none =>
    rw [store_update_of_book_none hb now a src se]
    intro p r hp
    have hp' : (if p = peer then
        some ((record.PeerAddressRecord.new
          s.config.record_capacity).update_address now a src se).2
        else s.address_book p) = some r := hp
    by_cases hpp : p = peer
    · rw [if_pos hpp] at hp'
      cases hp'
      exact update_address_record_inv
        (record_new_inv s.config.record_capacity) now a src se
    · rw [if_neg hpp] at hp'
      exact h p r hp'

theorem store_remove_inv {s : MemoryStore} (h : StoreInv s) (peer : PeerId)
    (a : Multiaddr) : StoreInv (s.remove_address peer a).2 := by
  cases hb : s.address_book peer with
  | some r0 =>
    rw [store_remove_of_book_some hb a]
    intro p r hp
    have hp' : (if p = peer then some (r0.remove_address a).2
        else s.address_book p) = some r := hp
    by_cases hpp : p = peer
    · rw [if_pos hpp] at hp'
      cases hp'
      exact remove_address_record_inv (h peer r0 hb) a
    · rw [if_neg hpp] at hp'
      exact h p r hp'
  | none =>
    rw [store_remove_of_book_none hb a]
    exact h

theorem store_check_ttl_inv {s : MemoryStore} (h : StoreInv s)
    (now : Instant) : StoreInv (s.check_ttl now) := by
  intro p r hp
  have hp' : (s.address_book p).map
      (fun r0 => r0.check_ttl now s.config.record_ttl) = some r := hp
  cases hb : s.address_book p with
  | some r0 =>
    rw [hb] at hp'
    simp only [Option.map_some'] at hp'
    cases hp'
    exact check_ttl_record_inv (h p r0 hb) now s.config.record_ttl
  | none => rw [hb] at hp'; cases hp'

theorem remove_failed_preserve (peer : PeerId) (P : MemoryStore → Prop)
    (hP : ∀ (t : MemoryStore) (a : Multiaddr), P t →
      P (t.remove_address peer a).2)
    (failed : List Multiaddr) :
    ∀ acc : Bool × MemoryStore, P acc.2 →
      P (failed.foldl (fun acc fa =>
          let (b, s') := acc.2.remove_address peer fa
          (acc.1 || b, s')) acc).2 := by
  induction failed with
  | nil => exact fun acc h => h
  | cons fa rest ih =>
    intro acc h
    rw [List.foldl_cons]
    apply ih
    have h2 := hP acc.2 fa h
    rcases hra : acc.2.remove_address peer fa with ⟨b, s'⟩
    rw [hra] at h2
    simp only [hra]
    exact h2

theorem remove_failed_inv {s : MemoryStore} (h : StoreInv s) (peer : PeerId)
    (failed : List Multiaddr) : StoreInv (s.remove_failed peer failed).2 :=
  remove_failed_preserve peer StoreInv
    (fun t a ht => store_remove_inv ht peer a) failed (false, s) h

theorem remove_failed_config (s : MemoryStore) (peer : PeerId)
    (failed : List Multiaddr) :
    (s.remove_failed peer failed).2.config = s.config :=
  remove_failed_preserve peer (fun t => t.config = s.config)
    (fun t a ht => by
      show (t.remove_address peer a).2.config = s.config
      rw [store_remove_config t peer a]
      exact ht)
    failed (false, s) rfl

theorem store_swarm_inv {s : MemoryStore} (h : StoreInv s) (T : Type)
    (now : Instant) (ev : FromSwarm) :
    StoreInv (s.on_swarm_event T now ev).2 := by
  cases ev with
  | newExternalAddrOfPeer peer addr =>
    rcases hu : s.update_address now peer addr .behaviour true with ⟨b, s'⟩
    have h2 := store_update_inv h now peer addr .behaviour true
    rw [hu] at h2
    have h2' : StoreInv s' := h2
    simp only [MemoryStore.on_swarm_event, hu]
    exact h2'
  | connectionEstablished peer remote failed =>
    rcases hrf : s.remove_failed peer failed with ⟨rb, s1⟩
    have h1 := remove_failed_inv h peer failed
    rw [hrf] at h1
    have h1' : StoreInv s1 := h1
    rcases hu : s1.update_address now peer remote .directConnection false
      with ⟨ub, s2⟩
    have h2 := store_update_inv h1' now peer remote .directConnection false
    rw [hu] at h2
    have h2' : StoreInv s2 := h2
    simp only [MemoryStore.on_swarm_event, hrf, hu]
    exact h2'
  | other => exact h

theorem store_swarm_config (s : MemoryStore) (T : Type) (now : Instant)
    (ev : FromSwarm) : (s.on_swarm_event T now ev).2.config = s.config := by
  cases ev with
  | newExternalAddrOfPeer peer addr =>
    rcases hu : s.update_address now peer addr .behaviour true with ⟨b, s'⟩
    have h2 := store_update_config s now peer addr .behaviour true
    rw [hu] at h2
    have h2' : s'.config = s.config := h2
    simp only [MemoryStore.on_swarm_event, hu]
    exact h2'
  | connectionEstablished peer remote failed =>
    rcases hrf : s.remove_failed peer failed with ⟨rb, s1⟩
    have h1 := remove_failed_config s peer failed
    rw [hrf] at h1
    have h1' : s1.config = s.config := h1
    rcases hu : s1.update_address now peer remote .directConnection false
      with ⟨ub, s2⟩
    have h2 := store_update_config s1 now peer remote .directConnection false
    rw [hu] at h2
    have h2' : s2.config = s1.config := h2
    simp only [MemoryStore.on_swarm_event, hrf, hu]
    exact h2'.trans h1'
  | other => rfl

theorem applyOp_inv {s : MemoryStore} (h : StoreInv s) (op : Op) :
    StoreInv (s.applyOp op) := by
  cases op with
  | update now p a src se => exact store_update_inv h now p a src se
  | remove p a => exact store_remove_inv h p a
  | swarm now ev => exact store_swarm_inv h Empty now ev
  | ttl now => exact store_check_ttl_inv h now

theorem applyOp_config (s : MemoryStore) (op : Op) :
    (s.applyOp op).config = s.config := by
  cases op with
  | update now p a src se => exact store_update_config s now p a src se
  | remove p a => exact store_remove_config s p a
  | swarm now ev => exact store_swarm_config s Empty now ev
  | ttl now => rfl

theorem applyOps_inv {s : MemoryStore} (h : StoreInv s) (ops : List Op) :
    StoreInv (s.applyOps ops) := by
  induction ops generalizing s with
  | nil => exact h
  | cons op rest ih => exact ih (applyOp_inv h op)

theorem reachable_inv {s : MemoryStore} (h : Reachable s) : StoreInv s := by
  obtain ⟨cfg, ops, hops⟩ := h
  rw [← hops]
  exact applyOps_inv (fun p r hp => by cases hp) ops

/-! Behavioural helper lemmas shared by the claim theorems. -/

theorem addresses_of_peer_of_book_some {s : MemoryStore} {p : PeerId}
    {r : record.PeerAddressRecord} (hb : s.address_book p = some r) :
    s.addresses_of_peer p = some r.addressList := by
  unfold MemoryStore.addresses_of_peer
  rw [hb]
  rfl

theorem lookup_record_decomp {s : MemoryStore} {p : PeerId} {a : Multiaddr}
    {v : record.AddressRecord} (h : s.lookup_record p a = some v) :
    ∃ r e, s.address_book p = some r ∧
      r.addresses.entries.find? (fun x => x.1 == a) = some e ∧ e.2 = v := by
  unfold MemoryStore.lookup_record at h
  cases hb : s.address_book p with
  | some r =>
    rw [hb] at h
    simp only [Option.some_bind] at h
    cases hfind : r.addresses.entries.find? (fun x => x.1 == a) with
    | some e =>
      rw [hfind] at h
      simp only [Option.map_some'] at h
      exact ⟨r, e, rfl, hfind, Option.some.inj h⟩
    | none => rw [hfind] at h; cases h
  | none => rw [hb] at h; cases h

theorem refresh_lookup {s : MemoryStore} {p : PeerId} {a : Multiaddr}
    {v : record.AddressRecord} (h : s.lookup_record p a = some v)
    (now : Instant) (src : AddressSource) (se : Bool) :
    (s.update_address now p a src se).1 = false ∧
    (s.update_address now p a src se).2.lookup_record p a
      = some (v.update_last_seen now) ∧
    ∃ r', (s.update_address now p a src se).2.address_book p = some r' ∧
      r'.addresses.entries.head? = some (a, v.update_last_seen now) := by
  obtain ⟨r, e, hb, hfind, hev⟩ := lookup_record_decomp h
  rw [store_update_of_book_some hb now a src se,
    update_address_of_find?_some hfind now src se]
  subst hev
  refine ⟨rfl, ?_, ?_⟩
  · unfold MemoryStore.lookup_record
    have hbp : ((
        { s with address_book := fun q =>
            (if q = p then some ⟨⟨r.addresses.cap,
              (a, e.2.update_last_seen now)
                :: r.addresses.entries.eraseP (fun x => x.1 == a)⟩⟩
             else s.address_book q) } : MemoryStore).address_book p)
          = some (⟨⟨r.addresses.cap,
              (a, e.2.update_last_seen now)
                :: r.addresses.entries.eraseP (fun x => x.1 == a)⟩⟩ :
                record.PeerAddressRecord) := by
      show (if p = p then _ else _) = _
      rw [if_pos rfl]
    rw [hbp]
    simp only [Option.some_bind]
    have hfr : (((a, e.2.update_last_seen now)
        :: r.addresses.entries.eraseP (fun x => x.1 == a)).find?
          (fun x => x.1 == a)) = some (a, e.2.update_last_seen now) := by
      have hba : ((a : Multiaddr) == a) = true := by simp
      simp [List.find?_cons, hba]
    rw [hfr]
    rfl
  · refine ⟨⟨⟨r.addresses.cap,
      (a, e.2.update_last_seen now)
        :: r.addresses.entries.eraseP (fun x => x.1 == a)⟩⟩, ?_, rfl⟩
    show (if p = p then _ else _) = _
    rw [if_pos rfl]

theorem record_update_head {r : record.PeerAddressRecord}
    (hcap : 0 < r.addresses.cap) (now : Instant) (a : Multiaddr)
    (src : AddressSource) (se : Bool) :
    ∃ rest, ((r.update_address now a src se).2).addressList = a :: rest := by
  cases hfind : r.addresses.entries.find? (fun x => x.1 == a) with
  | some e =>
    rw [update_address_of_find?_some hfind now src se]
    exact ⟨keysOf (r.addresses.entries.eraseP (fun x => x.1 == a)), rfl⟩
  | none =>
    rw [update_address_of_find?_none hfind now src se]
    by_cases hc : r.addresses.cap
        < ((a, record.AddressRecord.new now src se)
            :: r.addresses.entries).length
    · cases hes : r.addresses.entries with
      | nil =>
        exfalso
        rw [hes] at hc
        simp at hc
        omega
      | cons hd tl =>
        rw [hes] at hc
        refine ⟨keysOf ((hd :: tl).dropLast), ?_⟩
        rw [if_pos hc]
        rfl
    · refine ⟨keysOf r.addresses.entries, ?_⟩
      rw [if_neg hc]
      rfl

theorem store_update_head {s : MemoryStore} (hinv : StoreInv s)
    (hcap : 0 < s.config.record_capacity) (now : Instant) (p : PeerId)
    (a : Multiaddr) (src : AddressSource) (se : Bool) :
    ∃ rest, (s.update_address now p a src se).2.addresses_of_peer p
      = some (a :: rest) := by
  cases hb : s.address_book p with
  | some r =>
    obtain ⟨hcapEq, _, _⟩ := hinv p r hb
    have hrcap : 0 < r.addresses.cap := hcapEq ▸ hcap
    obtain ⟨rest, hrest⟩ := record_update_head hrcap now a src se
    refine ⟨rest, ?_⟩
    rw [store_update_of_book_some hb now a src se]
    have hbp : (({ s with address_book := fun q =>
        (if q = p then some (r.update_address now a src se).2
         else s.address_book q) } : MemoryStore).address_book p)
          = some (r.update_address now a src se).2 := by
      show (if p = p then _ else _) = _
      rw [if_pos rfl]
    rw [addresses_of_peer_of_book_some hbp, hrest]
  | none =>
    have hrcap : 0 < ((record.PeerAddressRecord.new
        s.config.record_capacity).addresses.cap) := hcap
    obtain ⟨rest, hrest⟩ := record_update_head hrcap now a src se
    refine ⟨rest, ?_⟩
    rw [store_update_of_book_none hb now a src se]
    have hbp : (({ s with address_book := fun q =>
        (if q = p then
          some ((record.PeerAddressRecord.new
            s.config.record_capacity).update_address now a src se).2
         else s.address_book q) } : MemoryStore).address_book p)
          = some ((record.PeerAddressRecord.new
              s.config.record_capacity).update_address now a src se).2 := by
      show (if p = p then _ else _) = _
      rw [if_pos rfl]
    rw [addresses_of_peer_of_book_some hbp, hrest]

theorem update_book_isSome {s : MemoryStore} {p : PeerId}
    (h : (s.address_book p).isSome = true) (now : Instant) (peer : PeerId)
    (a : Multiaddr) (src : AddressSource) (se : Bool) :
    ((s.update_address now peer a src se).2.address_book p).isSome = true := by
  cases hb : s.address_book peer with
  | some r0 =>
    rw [store_update_of_book_some hb now a src se]
    show (if p = peer then some (r0.update_address now a src se).2
        else s.address_book p).isSome = true
    by_cases hpp : p = peer
    · rw [if_pos hpp]; rfl
    · rw [if_neg hpp]; exact h
  | none =>
    rw [store_update_of_book_none hb now a src se]
    show (if p = peer then some ((record.PeerAddressRecord.new
        s.config.record_capacity).update_address now a src se).2
        else s.address_book p).isSome = true
    by_cases hpp : p = peer
    · rw [if_pos hpp]; rfl
    · rw [if_neg hpp]; exact h

theorem remove_book_isSome {s : MemoryStore} {p : PeerId}
    (h : (s.address_book p).isSome = true) (peer : PeerId) (a : Multiaddr) :
    ((s.remove_address peer a).2.address_book p).isSome = true := by
  cases hb : s.address_book peer with
  | some r0 =>
    rw [store_remove_of_book_some hb a]
    show (if p = peer then some (r0.remove_address a).2
        else s.address_book p).isSome = true
    by_cases hpp : p = peer
    · rw [if_pos hpp]; rfl
    · rw [if_neg hpp]; exact h
  | none =>
    rw [store_remove_of_book_none hb a]
    exact h

theorem check_ttl_book_isSome {s : MemoryStore} {p : PeerId}
    (h : (s.address_book p).isSome = true) (now : Instant) :
    ((s.check_ttl now).address_book p).isSome = true := by
  show ((s.address_book p).map
    (fun r => r.check_ttl now s.config.record_ttl)).isSome = true
  cases hb : s.address_book p with
  | some r0 => rfl
  | none => rw [hb] at h; cases h

theorem swarm_book_isSome {s : MemoryStore} {p : PeerId}
    (h : (s.address_book p).isSome = true) (T : Type) (now : Instant)
    (ev : FromSwarm) :
    ((s.on_swarm_event T now ev).2.address_book p).isSome = true := by
  cases ev with
  | newExternalAddrOfPeer peer addr =>
    rcases hu : s.update_address now peer addr .behaviour true with ⟨b, s'⟩
    have h2 := update_book_isSome h now peer addr .behaviour true
    rw [hu] at h2
    have h2' : (s'.address_book p).isSome = true := h2
    simp only [MemoryStore.on_swarm_event, hu]
    exact h2'
  | connectionEstablished peer remote failed =>
    rcases hrf : s.remove_failed peer failed with ⟨rb, s1⟩
    have h1 : ((s.remove_failed peer failed).2.address_book p).isSome
        = true :=
      remove_failed_preserve peer
        (fun t => (t.address_book p).isSome = true)
        (fun t a ht => remove_book_isSome ht peer a) failed (false, s) h
    rw [hrf] at h1
    have h1' : (s1.address_book p).isSome = true := h1
    rcases hu : s1.update_address now peer remote .directConnection false
      with ⟨ub, s2⟩
    have h2 := update_book_isSome h1' now peer remote .directConnection false
    rw [hu] at h2
    have h2' : (s2.address_book p).isSome = true := h2
    simp only [MemoryStore.on_swarm_event, hrf, hu]
    exact h2'
  | other => exact h

/-- Claim C9: querying or mutating an unknown peer is total and
non-erroneous: `addresses_of_peer` for a never-observed peer is `None`
(not an empty present sequence), and `remove_address` for an unknown peer
returns `false` and leaves the store unchanged. -/
theorem c9_unknown_peer_absent (s : MemoryStore) (p : PeerId) (a : Multiaddr)
    (h : s.address_book p = none) :
    s.addresses_of_peer p = none ∧ s.remove_address p a = (false, s) :=
  ⟨by unfold MemoryStore.addresses_of_peer; rw [h]; rfl,
   store_remove_of_book_none h a⟩

theorem c9_unknown_peer_absent_witness :
    (MemoryStore.new Config.default).addresses_of_peer 3 = none ∧
      (MemoryStore.new Config.default).remove_address 3 4 =
        (false, MemoryStore.new Config.default) :=
  c9_unknown_peer_absent (MemoryStore.new Config.default) 3 4 rfl

/-- Claim C10: no public store operation ever removes a peer's key from the
address book: a peer present before any `update_address`,
`remove_address`, `on_swarm_event` or `check_ttl` call is still present
afterwards; consequently `addresses_of_peer` can return a
present-but-empty list (second conjunct: a concrete run in which the
peer's only address has been expired by maintenance, yet the peer is
still present with an empty address list). -/
theorem c10_peer_key_never_removed :
    (∀ (s : MemoryStore) (op : Op) (p : PeerId),
      (s.address_book p).isSome = true →
      ((s.applyOp op).address_book p).isSome = true) ∧
    (MemoryStore.applyOps (MemoryStore.new ⟨1, 4⟩)
        [Op.update 0 5 11 .manual true, Op.ttl 2]).addresses_of_peer 5
      = some [] := by
  constructor
  · intro s op p h
    cases op with
    | update now peer a src se => exact update_book_isSome h now peer a src se
    | remove peer a => exact remove_book_isSome h peer a
    | swarm now ev => exact swarm_book_isSome h Empty now ev
    | ttl now => exact check_ttl_book_isSome h now
  · decide

theorem c10_peer_key_never_removed_witness :
    (((MemoryStore.applyOps (MemoryStore.new ⟨1, 4⟩)
        [Op.update 0 5 11 .manual true]).applyOp
          (Op.ttl 2)).address_book 5).isSome = true :=
  c10_peer_key_never_removed.1
    (MemoryStore.applyOps (MemoryStore.new ⟨1, 4⟩)
      [Op.update 0 5 11 .manual true]) (Op.ttl 2) 5 (by decide)

/-- Claim C1 (code bug): the spec says every `RecordUpdated` notification
produced by the store's `on_swarm_event` is queued by the `Behaviour`
adapter and eventually yielded by `poll`.  The source's
`Behaviour::on_swarm_event` (behaviour.rs) instead discards the return
value of `self.store.on_swarm_event(&event)`; nothing is ever queued from
a lifecycle event (first conjunct), a behaviour with an empty queue polls
nothing forever (second conjunct), and on the concrete failing input —
a fresh behaviour receiving `NewExternalAddrOfPeer` — the store-level
call does produce `Some(RecordUpdated)` while the adapter's queue stays
empty and the next poll yields nothing (third conjunct). -/
theorem c1_swarm_notification_discarded :
    (∀ (b : Behaviour) (now : Instant) (ev : FromSwarm),
      (b.on_swarm_event now ev).pending_events = b.pending_events) ∧
    (∀ b : Behaviour, b.pending_events = [] →
      b.poll.1 = none ∧ b.poll.2.pending_events = []) ∧
    (((Behaviour.new (MemoryStore.new Config.default)).store.on_swarm_event
        Empty 0 (.newExternalAddrOfPeer 7 3)).1
          = some (.recordUpdated 7) ∧
      ((Behaviour.new (MemoryStore.new Config.default)).on_swarm_event 0
        (.newExternalAddrOfPeer 7 3)).pending_events = [] ∧
      ((Behaviour.new (MemoryStore.new Config.default)).on_swarm_event 0
        (.newExternalAddrOfPeer 7 3)).poll.1 = none) := by
  refine ⟨fun b now ev => rfl, ?_, by decide, rfl, rfl⟩
  intro b hb
  have h1 : behaviour_poll Empty b.store.pollStore b.pending_events
      = (none, []) := by
    rw [hb]
    rfl
  constructor
  · show (Behaviour.poll b).1 = none
    unfold Behaviour.poll
    rw [h1]
  · show (Behaviour.poll b).2.pending_events = []
    unfold Behaviour.poll
    rw [h1]

theorem c1_swarm_notification_discarded_witness :
    (Behaviour.new (MemoryStore.new Config.default)).poll.1 = none ∧
      (Behaviour.new
        (MemoryStore.new Config.default)).poll.2.pending_events = [] :=
  c1_swarm_notification_discarded.2.1
    (Behaviour.new (MemoryStore.new Config.default)) rfl

/-- Claim C3 counterexample: the claim reads `poll` as yielding a drained
backend event with priority over the pending queue.  On the concrete
input where the queue already holds `RecordUpdated 0` and the store
drains backend event `7`, the code yields the queued `RecordUpdated 0`
(the backend event is appended at the back), not the wrapped backend
event the claim predicts. -/
theorem c3_poll_priority_counterexample :
    behaviour_poll Nat (some (.store 7)) [.recordUpdated 0]
        = (some (.recordUpdated 0), [.store 7]) ∧
      some (BehaviourEvent.recordUpdated 0)
        ≠ some (BehaviourEvent.store (7 : Nat)) := by
  exact ⟨by decide, by decide⟩

/-- Claim C3 as amended: each `poll` first appends a drained backend event
(wrapped) to the back of the pending queue, then dequeues the oldest
pending notification — so the backend event is yielded immediately only
when the queue was empty; at most one notification is yielded per call,
and a burst of three queued notifications yields exactly three ready
polls before a not-ready poll. -/
theorem c3_poll_fifo_amended :
    (∀ (T : Type) (q : List (BehaviourEvent T)),
      behaviour_poll T none q = (q.head?, q.tail)) ∧
    (∀ (T : Type) (ev : StoreEvent T) (q : List (BehaviourEvent T)),
      behaviour_poll T (some ev) q
        = ((q ++ [wrap_store_event T ev]).head?,
           (q ++ [wrap_store_event T ev]).tail)) ∧
    (∀ (T : Type) (e1 e2 e3 : BehaviourEvent T),
      (behaviour_poll T none [e1, e2, e3]).1 = some e1 ∧
      (behaviour_poll T none
        (behaviour_poll T none [e1, e2, e3]).2).1 = some e2 ∧
      (behaviour_poll T none (behaviour_poll T none
        (behaviour_poll T none [e1, e2, e3]).2).2).1 = some e3 ∧
      (behaviour_poll T none (behaviour_poll T none
        (behaviour_poll T none
          (behaviour_poll T none [e1, e2, e3]).2).2).2).1 = none) := by
  refine ⟨?_, ?_, ?_⟩
  · intro T q
    cases q <;> rfl
  · intro T ev q
    cases ev <;> cases q <;> rfl
  · intro T e1 e2 e3
    exact ⟨rfl, rfl, rfl, rfl⟩

/-- Claim C2 counterexample: the claim states that record iteration (and
`addresses_of_peer`) is ordered least-recently-used first.  Inserting
address `1` and then address `2` for one peer leaves `1`
least-recently-used, so the claim predicts the list `[1, 2]`; the code
iterates the LRU cache most-recently-used first and returns `[2, 1]`
(this matches the repository's own `recent_use_bubble_up` test, which
asserts that the LAST element of `records()` is the least-recently-used
entry). -/
theorem c2_iteration_order_counterexample :
    ((((MemoryStore.new Config.default).update_address 0 5 1 .manual
        false).2.update_address 1 5 2 .manual false).2.addresses_of_peer 5
      = some [2, 1]) ∧
      some [2, 1] ≠ some [1, 2] := by
  exact ⟨by decide, by decide⟩

/-- Claim C2 as amended: record iteration (`records()`) and
`addresses_of_peer` are ordered most-recently-used first — the reverse of
the claimed order; the sequence is a finite `List` computed from the
state at call time.  First conjunct: in any reachable store with positive
capacity, the address just inserted-or-refreshed by `update_address` is
the FIRST element of the peer's address list.  Second conjunct: inserting
two distinct fresh addresses yields the iteration `[second, first]`, the
least-recently-used entry last. -/
theorem c2_mru_first_amended :
    (∀ (s : MemoryStore) (now : Instant) (p : PeerId) (a : Multiaddr)
        (src : AddressSource) (se : Bool),
      Reachable s → 0 < s.config.record_capacity →
      ∃ rest, (s.update_address now p a src se).2.addresses_of_peer p
        = some (a :: rest)) ∧
    (∀ (cap : Nat) (a1 a2 : Multiaddr) (t1 t2 : Instant)
        (src1 src2 : AddressSource) (se1 se2 : Bool),
      a1 ≠ a2 → 2 ≤ cap →
      (((record.PeerAddressRecord.new cap).update_address t1 a1 src1
          se1).2.update_address t2 a2 src2 se2).2.records.map
            (fun rec => rec.address) = [a2, a1]) := by
  constructor
  · intro s now p a src se hreach hcap
    exact store_update_head (reachable_inv hreach) hcap now p a src se
  · intro cap a1 a2 t1 t2 src1 src2 se1 se2 hne hcap
    have hf1 : (record.PeerAddressRecord.new
        cap).addresses.entries.find? (fun x => x.1 == a1) = none := rfl
    have hR1 : ((record.PeerAddressRecord.new cap).update_address t1 a1
        src1 se1).2
          = ⟨⟨cap, [(a1, record.AddressRecord.new t1 src1 se1)]⟩⟩ := by
      rw [update_address_of_find?_none hf1 t1 src1 se1]
      have hnc : ¬ ((record.PeerAddressRecord.new cap).addresses.cap
          < ((a1, record.AddressRecord.new t1 src1 se1)
              :: (record.PeerAddressRecord.new
                cap).addresses.entries).length) := by
        show ¬ (cap < 1)
        omega
      rw [if_neg hnc]
      rfl
    rw [hR1]
    have hf2 : (⟨⟨cap, [(a1, record.AddressRecord.new t1 src1 se1)]⟩⟩
        : record.PeerAddressRecord).addresses.entries.find?
          (fun x => x.1 == a2) = none := by
      have hb : (a1 == a2) = false := by simpa using hne
      simp [List.find?_cons, hb]
    rw [update_address_of_find?_none hf2 t2 src2 se2]
    have hnc2 : ¬ ((⟨⟨cap, [(a1, record.AddressRecord.new t1 src1 se1)]⟩⟩
        : record.PeerAddressRecord).addresses.cap
          < ((a2, record.AddressRecord.new t2 src2 se2)
              :: (⟨⟨cap, [(a1, record.AddressRecord.new t1 src1 se1)]⟩⟩
                : record.PeerAddressRecord).addresses.entries).length) := by
      show ¬ (cap < 2)
      omega
    rw [if_neg hnc2]
    rfl

theorem c2_mru_first_amended_witness :
    (((record.PeerAddressRecord.new 8).update_address 0 1 .manual
        false).2.update_address 1 2 .manual false).2.records.map
          (fun rec => rec.address) = [2, 1] :=
  c2_mru_first_amended.2 8 1 2 0 1 .manual .manual false false
    (by decide) (by decide)

/-- Claim C5: `update_address` returns `true` exactly when the
`(peer, address)` pair is not currently stored (creating the peer's record
lazily if absent), and returns `false` on a refresh of a stored pair; a
refresh sets the entry's `last_seen` to the current instant and moves it
to the most-recently-used (first) position. -/
theorem c5_update_new_information (s : MemoryStore) (now : Instant)
    (p : PeerId) (a : Multiaddr) (src : AddressSource) (se : Bool) :
    ((s.update_address now p a src se).1 = true ↔ s.lookup_record p a = none)
    ∧ (∀ v, s.lookup_record p a = some v →
      (s.update_address now p a src se).1 = false ∧
      ∃ r', (s.update_address now p a src se).2.address_book p = some r' ∧
        r'.addresses.entries.head? = some (a, v.update_last_seen now)) := by
  constructor
  · cases hb : s.address_book p with
    | none =>
      rw [store_update_of_book_none hb now a src se]
      have hlk : s.lookup_record p a = none := by
        unfold MemoryStore.lookup_record
        rw [hb]
        rfl
      simp [hlk]
    | some r =>
      cases hfind : r.addresses.entries.find? (fun x => x.1 == a) with
      | none =>
        rw [store_update_of_book_some hb now a src se,
            update_address_of_find?_none hfind now src se]
        have hlk : s.lookup_record p a = none := by
          unfold MemoryStore.lookup_record
          rw [hb]
          simp only [Option.some_bind]
          rw [hfind]
          rfl
        simp [hlk]
      | some e =>
        rw [store_update_of_book_some hb now a src se,
            update_address_of_find?_some hfind now src se]
        have hlk : s.lookup_record p a = some e.2 := by
          unfold MemoryStore.lookup_record
          rw [hb]
          simp only [Option.some_bind]
          rw [hfind]
          rfl
        simp [hlk]
  · intro v hv
    obtain ⟨h1, _, h3⟩ := refresh_lookup hv now src se
    exact ⟨h1, h3⟩

theorem c5_update_new_information_witness :
    (((MemoryStore.applyOps (MemoryStore.new Config.default)
        [Op.update 0 5 7 .manual true]).update_address 3 5 7 .behaviour
          false).1 = false) ∧
      ∃ r', ((MemoryStore.applyOps (MemoryStore.new Config.default)
        [Op.update 0 5 7 .manual true]).update_address 3 5 7 .behaviour
          false).2.address_book 5 = some r' ∧
        r'.addresses.entries.head?
          = some (7, record.AddressRecord.update_last_seen
              ⟨0, .manual, true⟩ 3) :=
  (c5_update_new_information
    (MemoryStore.applyOps (MemoryStore.new Config.default)
      [Op.update 0 5 7 .manual true]) 3 5 7 .behaviour false).2
    ⟨0, .manual, true⟩ (by decide)

/-- Claim C8: refreshing a stored `(peer, address)` pair changes only its
`last_seen` (and recency position): the stored `source` and
`should_expire` keep their first-observation values whatever arguments
the refresh passes — in particular (third conjunct) a successful direct
connection over an address (a `ConnectionEstablished` event, which
passes `DirectConnection` and `should_expire = false`) leaves an address
first recorded with source `Behaviour` and `should_expire = true`
unchanged except for its timestamp, so it stays subject to TTL expiry. -/
theorem c8_refresh_preserves_flags (s : MemoryStore) (now : Instant)
    (p : PeerId) (a : Multiaddr) (src : AddressSource) (se : Bool)
    (v : record.AddressRecord) (h : s.lookup_record p a = some v) :
    (s.update_address now p a src se).1 = false ∧
    (s.update_address now p a src se).2.lookup_record p a
      = some ⟨now, v.source, v.should_expire⟩ ∧
    (∀ T : Type, (s.on_swarm_event T now
        (.connectionEstablished p a [])).2.lookup_record p a
      = some ⟨now, v.source, v.should_expire⟩) := by
  obtain ⟨h1, h2, _⟩ := refresh_lookup h now src se
  refine ⟨h1, ?_, ?_⟩
  · rw [h2]
    rfl
  · intro T
    have hswarm : (s.on_swarm_event T now
        (.connectionEstablished p a [])).2
          = (s.update_address now p a .directConnection false).2 := by
      rcases hu : s.update_address now p a .directConnection false
        with ⟨ub, s2⟩
      have hrf : s.remove_failed p ([] : List Multiaddr) = (false, s) := rfl
      simp only [MemoryStore.on_swarm_event, hrf, hu]
    rw [hswarm]
    obtain ⟨_, h2', _⟩ := refresh_lookup h now .directConnection false
    rw [h2']
    rfl

theorem c8_refresh_preserves_flags_witness :
    (((MemoryStore.applyOps (MemoryStore.new Config.default)
        [Op.update 0 5 7 .behaviour true]).update_address 3 5 7
          .directConnection false).1 = false) ∧
    ((MemoryStore.applyOps (MemoryStore.new Config.default)
        [Op.update 0 5 7 .behaviour true]).update_address 3 5 7
          .directConnection false).2.lookup_record 5 7
      = some ⟨3, .behaviour, true⟩ ∧
    (∀ T : Type, ((MemoryStore.applyOps (MemoryStore.new Config.default)
        [Op.update 0 5 7 .behaviour true]).on_swarm_event T 3
          (.connectionEstablished 5 7 [])).2.lookup_record 5 7
      = some ⟨3, .behaviour, true⟩) :=
  c8_refresh_preserves_flags
    (MemoryStore.applyOps (MemoryStore.new Config.default)
      [Op.update 0 5 7 .behaviour true]) 3 5 7 .directConnection false
    ⟨0, .behaviour, true⟩ (by decide)

/-- Claim C4: on a `ConnectionEstablished` event the store first calls
`remove_address` for each failed address (in order, OR-accumulating the
results), then `update_address` for the succeeded remote address with
source `DirectConnection` and `should_expire = false`, and notifies
`RecordUpdated(peer)` exactly when some removal or the update returned
`true` (first conjunct, the literal decomposition); consequently the
succeeded address is present — in fact most-recently-used — in the final
state even if it also appears in the failed list (second conjunct, with
`failed` arbitrary). -/
theorem c4_connection_established (T : Type) (s : MemoryStore)
    (now : Instant) (p : PeerId) (succ : Multiaddr)
    (failed : List Multiaddr) (hreach : Reachable s)
    (hcap : 0 < s.config.record_capacity) :
    (s.on_swarm_event T now (.connectionEstablished p succ failed)
      = (if (s.remove_failed p failed).1
            || ((s.remove_failed p failed).2.update_address now p succ
                  .directConnection false).1
         then some (.recordUpdated p) else none,
         ((s.remove_failed p failed).2.update_address now p succ
            .directConnection false).2)) ∧
    ∃ rest, (s.on_swarm_event T now
        (.connectionEstablished p succ failed)).2.addresses_of_peer p
      = some (succ :: rest) := by
  have hdec : s.on_swarm_event T now (.connectionEstablished p succ failed)
      = (if (s.remove_failed p failed).1
            || ((s.remove_failed p failed).2.update_address now p succ
                  .directConnection false).1
         then some (.recordUpdated p) else none,
         ((s.remove_failed p failed).2.update_address now p succ
            .directConnection false).2) := by
    rcases hrf : s.remove_failed p failed with ⟨rb, s1⟩
    rcases hu : s1.update_address now p succ .directConnection false
      with ⟨ub, s2⟩
    simp only [MemoryStore.on_swarm_event, hrf, hu]
  refine ⟨hdec, ?_⟩
  rw [hdec]
  have hinv1 : StoreInv (s.remove_failed p failed).2 :=
    remove_failed_inv (reachable_inv hreach) p failed
  have hcap1 : 0 < (s.remove_failed p failed).2.config.record_capacity := by
    rw [remove_failed_config]
    exact hcap
  exact store_update_head hinv1 hcap1 now p succ .directConnection false

theorem c4_connection_established_witness :
    ((MemoryStore.new Config.default).on_swarm_event Nat 0
        (.connectionEstablished 5 2 [2, 3])
      = (if ((MemoryStore.new Config.default).remove_failed 5 [2, 3]).1
            || (((MemoryStore.new Config.default).remove_failed 5
                  [2, 3]).2.update_address 0 5 2
                  .directConnection false).1
         then some (.recordUpdated 5) else none,
         (((MemoryStore.new Config.default).remove_failed 5
            [2, 3]).2.update_address 0 5 2
            .directConnection false).2)) ∧
    ∃ rest, ((MemoryStore.new Config.default).on_swarm_event Nat 0
        (.connectionEstablished 5 2 [2, 3])).2.addresses_of_peer 5
      = some (2 :: rest) :=
  c4_connection_established Nat (MemoryStore.new Config.default) 0 5 2
    [2, 3] ⟨Config.default, [], rfl⟩ (by decide)

theorem is_expired_false_iff (rec : record.AddressRecord) (now : Instant)
    (ttl : Duration) :
    ((!(rec.is_expired now ttl)) = true) ↔
      ¬(rec.should_expire = true ∧ ttl < now - rec.last_seen) := by
  unfold record.AddressRecord.is_expired
  by_cases hse : rec.should_expire
    <;> by_cases hc : ttl < now - rec.last_seen
    <;> simp [hse, hc]

/-- Claim C6: running maintenance (`check_ttl`) at instant `now` keeps, in
every tracked peer's record, exactly the entries that are NOT
(`should_expire = true` and `now - last_seen > ttl`); in particular every
entry with `should_expire = false` survives regardless of age. -/
theorem c6_check_ttl_expiry (s : MemoryStore) (now : Instant) (p : PeerId)
    (r : record.PeerAddressRecord) (hreach : Reachable s)
    (hb : s.address_book p = some r) :
    ∃ r', (s.check_ttl now).address_book p = some r' ∧
      ∀ e, e ∈ r'.addresses.entries ↔
        (e ∈ r.addresses.entries ∧
          ¬(e.2.should_expire = true ∧
            s.config.record_ttl < now - e.2.last_seen)) := by
  obtain ⟨_, hnd, _⟩ := reachable_inv hreach p r hb
  refine ⟨r.check_ttl now s.config.record_ttl, ?_, ?_⟩
  · show (s.address_book p).map
      (fun r0 => r0.check_ttl now s.config.record_ttl) = _
    rw [hb]
    rfl
  · intro e
    rw [check_ttl_entries_eq hnd, List.mem_filter]
    exact and_congr_right
      (fun _ => is_expired_false_iff e.2 now s.config.record_ttl)

theorem c6_check_ttl_expiry_witness :
    ∃ r', ((MemoryStore.applyOps (MemoryStore.new ⟨1, 4⟩)
        [Op.update 0 5 10 .manual false,
         Op.update 0 5 11 .manual true]).check_ttl 2).address_book 5
      = some r' ∧
      ∀ e, e ∈ r'.addresses.entries ↔
        (e ∈ (⟨⟨4, [(11, ⟨0, .manual, true⟩), (10, ⟨0, .manual, false⟩)]⟩⟩
            : record.PeerAddressRecord).addresses.entries ∧
          ¬(e.2.should_expire = true ∧
            (MemoryStore.applyOps (MemoryStore.new ⟨1, 4⟩)
              [Op.update 0 5 10 .manual false,
               Op.update 0 5 11 .manual true]).config.record_ttl
                < 2 - e.2.last_seen)) :=
  c6_check_ttl_expiry
    (MemoryStore.applyOps (MemoryStore.new ⟨1, 4⟩)
      [Op.update 0 5 10 .manual false, Op.update 0 5 11 .manual true])
    2 5 ⟨⟨4, [(11, ⟨0, .manual, true⟩), (10, ⟨0, .manual, false⟩)]⟩⟩
    ⟨⟨1, 4⟩, [Op.update 0 5 10 .manual false,
      Op.update 0 5 11 .manual true], rfl⟩ (by decide)

/-- Claim C7: in every reachable store state, each tracked peer's record
holds at most `record_capacity` addresses (first conjunct); an insertion
into a full record evicts exactly one entry, the least-recently-used
(last) one (second conjunct); and a refresh of a stored address never
evicts anything — the set of stored addresses is unchanged (third
conjunct). -/
theorem c7_capacity_invariant :
    (∀ s : MemoryStore, Reachable s → ∀ p r, s.address_book p = some r →
      r.addresses.entries.length ≤ s.config.record_capacity) ∧
    (∀ (r : record.PeerAddressRecord) (now : Instant) (a : Multiaddr)
        (src : AddressSource) (se : Bool),
      a ∉ keysOf r.addresses.entries →
      r.addresses.entries.length = r.addresses.cap →
      0 < r.addresses.cap →
      (r.update_address now a src se).2.addresses.entries
        = (a, record.AddressRecord.new now src se)
            :: r.addresses.entries.dropLast) ∧
    (∀ (r : record.PeerAddressRecord) (now : Instant) (a : Multiaddr)
        (src : AddressSource) (se : Bool),
      a ∈ keysOf r.addresses.entries →
      ∀ x, x ∈ keysOf (r.update_address now a src se).2.addresses.entries
        ↔ x ∈ keysOf r.addresses.entries) := by
  refine ⟨?_, ?_, ?_⟩
  · exact fun s hreach p r hb => ((reachable_inv hreach) p r hb).2.2
  · intro r now a src se hna hlen hcap
    have hfind : r.addresses.entries.find? (fun x => x.1 == a) = none :=
      find?_key_eq_none.mpr hna
    rw [update_address_of_find?_none hfind now src se]
    have hc : r.addresses.cap
        < ((a, record.AddressRecord.new now src se)
            :: r.addresses.entries).length := by
      rw [List.length_cons, hlen]
      exact Nat.lt_succ_self _
    show (if _ then _ else _) = _
    rw [if_pos hc]
    have hne : r.addresses.entries ≠ [] :=
      List.ne_nil_of_length_pos (hlen ▸ hcap)
    exact List.dropLast_cons_of_ne_nil hne
  · intro r now a src se hmem x
    cases hfind : r.addresses.entries.find? (fun y => y.1 == a) with
    | none => exact absurd hmem (find?_key_eq_none.mp hfind)
    | some e =>
      rw [update_address_of_find?_some hfind now src se]
      obtain ⟨hek, l1, l2, _, hes, her⟩ := find?_key_decomp hfind
      show x ∈ keysOf ((a, e.2.update_last_seen now)
          :: r.addresses.entries.eraseP (fun y => y.1 == a))
        ↔ x ∈ keysOf r.addresses.entries
      rw [her, hes]
      simp only [keysOf, List.map_cons, List.map_append, List.mem_cons,
        List.mem_append, hek]
      tauto

theorem c7_capacity_invariant_witness :
    (⟨⟨4, [(11, ⟨0, .manual, true⟩), (10, ⟨0, .manual, false⟩)]⟩⟩
      : record.PeerAddressRecord).addresses.entries.length
        ≤ (MemoryStore.applyOps (MemoryStore.new ⟨1, 4⟩)
            [Op.update 0 5 10 .manual false,
             Op.update 0 5 11 .manual true]).config.record_capacity :=
  c7_capacity_invariant.1
    (MemoryStore.applyOps (MemoryStore.new ⟨1, 4⟩)
      [Op.update 0 5 10 .manual false, Op.update 0 5 11 .manual true])
    ⟨⟨1, 4⟩, [Op.update 0 5 10 .manual false,
      Op.update 0 5 11 .manual true], rfl⟩
    5 ⟨⟨4, [(11, ⟨0, .manual, true⟩), (10, ⟨0, .manual, false⟩)]⟩⟩
    (by decide)

end PeerStore
